import Mathlib

/-!
Shallow embedding of the video scene-search pipeline (`VideoProcessor` in
`Video_Search_I2T.ipynb`) and proofs of the specified properties.

The pipeline detects scenes of a video, captions sampled frames with BLIP,
embeds the captions and the text query with CLIP, scores each scene by the
mean cosine similarity between the query embedding and the scene's caption
embeddings, and extracts the top-scoring scene.

External effects are made explicit: fallible model calls return
`Except String`, a video is a frame-indexed partial function, and the score
arithmetic is over `ℚ` (an exact stand-in for the float arithmetic of the
source, which the spec treats at the real-number level).
-/

namespace VideoSearch

/-- A video file as the pipeline observes it through `scenedetect.open_video`
and `cv2.VideoCapture`: whether it can be opened, how many frames it has,
the frame indices at which the content detector reports a cut, and a decoder
that returns the frame at an index or `none` when that read fails
(`cap.read()` returning `ret = False`). `F` is the type of decoded frames. -/
structure VideoFile (F : Type) where
  opensOk : Bool
  numFrames : Nat
  cuts : List Nat
  decode : Nat → Option F

/-- The external model capabilities the pipeline consumes as black boxes:
BLIP captioning of one frame (`blip_processor`/`blip_model.generate`/decode,
which may raise), CLIP text embedding (`model.get_text_features`, which may
raise), and the per-frame cosine similarity computed by
`torch.nn.functional.cosine_similarity` on the query embedding and one
frame-caption embedding. -/
structure ModelCaps (Frame Emb : Type) where
  caption : Frame → Except String String
  clip_text : String → Except String Emb
  cos_sim : Emb → Emb → ℚ

variable {F Frame Emb : Type}

/-- Embedding of `VideoProcessor.get_query_embedding`: embed a text with CLIP, catching
every exception and returning `None` (modelled as `none`) on failure. -/
def get_query_embedding (clip_text : String → Except String Emb) (query : String) :
    Option Emb :=
  match clip_text query with
  | .ok e => some e
  | .error _ => none

/-- The list built by the loop of `VideoProcessor.compute_I2T_embeddings`:
for each frame, captioning failures are caught by the inner `except` and the
frame is skipped (`continue`), while a successful caption is embedded via
`get_query_embedding` — whose result, possibly `None`, is appended as-is. -/
def compute_I2T_list (caps : ModelCaps Frame Emb) (frames : List Frame) :
    List (Option Emb) :=
  frames.filterMap (fun frame =>
    match caps.caption frame with
    | .error _ => none
    | .ok query => some (get_query_embedding caps.clip_text query))

/-- Helper for `torch_stack`: succeeds only when every element is present. -/
def all_some : List (Option Emb) → Option (List Emb)
  | [] => some []
  | none :: _ => none
  | some a :: rest => (all_some rest).map (fun l => a :: l)

/-- Embedding of `torch.stack` on the accumulated list: raises `RuntimeError` on an empty
list and `TypeError` when some element is `None`. -/
def torch_stack (l : List (Option Emb)) : Except String (List Emb) :=
  match l with
  | [] => .error "RuntimeError: stack expects a non-empty TensorList"
  | _ :: _ =>
    match all_some l with
    | some es => .ok es
    | none => .error "TypeError: expected Tensor as element, but got NoneType"

/-- Embedding of `VideoProcessor.compute_I2T_embeddings`: the per-frame loop followed by
`torch.stack(query_embeddings)`. -/
def compute_I2T_embeddings (caps : ModelCaps Frame Emb) (frames : List Frame) :
    Except String (List Emb) :=
  torch_stack (compute_I2T_list caps frames)

/-- Embedding of `torch.nn.functional.cosine_similarity(query_embedding, scene_embeddings)`:
raises a `TypeError` when the query embedding is `None`, otherwise yields the
similarity of the query embedding with each frame-caption embedding. -/
def cosine_similarity (cs : Emb → Emb → ℚ) (q : Option Emb) (es : List Emb) :
    Except String (List ℚ) :=
  match q with
  | none => .error "TypeError: cosine_similarity received NoneType"
  | some qe => .ok (es.map (cs qe))

/-- Embedding of `tensor.mean().item()` on a 1-d tensor of similarities. -/
def tensor_mean (l : List ℚ) : ℚ := l.sum / l.length

/-- The score a scene receives from a query embedding and a list of usable
frame-caption embeddings: the arithmetic mean of the per-frame similarities. -/
def score_embeddings (cs : Emb → Emb → ℚ) (qe : Emb) (es : List Emb) : ℚ :=
  tensor_mean (es.map (cs qe))

/-- Embedding of `VideoProcessor.process_scene`: compute the scene's caption embeddings,
take cosine similarities with the query embedding and return their mean;
every exception is caught and turned into the sentinel score `-1`. -/
def process_scene (caps : ModelCaps Frame Emb) (frames_in_scene : List Frame)
    (query_embedding : Option Emb) : ℚ :=
  match compute_I2T_embeddings caps frames_in_scene with
  | .error _ => -1
  | .ok scene_embeddings =>
    match cosine_similarity caps.cos_sim query_embedding scene_embeddings with
    | .error _ => -1
    | .ok sims => tensor_mean sims

/-- The frame-caption embeddings of a scene that are actually usable: frames
whose captioning succeeded and whose caption embedding also succeeded. -/
def usable_embeddings (caps : ModelCaps Frame Emb) (frames : List Frame) :
    List Emb :=
  frames.filterMap (fun frame =>
    match caps.caption frame with
    | .error _ => none
    | .ok query => get_query_embedding caps.clip_text query)

/-- Modelled from the spec: the `scenedetect` library
(`SceneManager`/`ContentDetector`/`get_scene_list`), which is not part of the
repository source, partitions the analyzed frame range into contiguous
intervals split at the detected content-change cuts; with no detected content
changes it yields one interval spanning the entire duration. -/
def split_from (start : Nat) (numFrames : Nat) : List Nat → List (Nat × Nat)
  | [] => [(start, numFrames - 1)]
  | c :: rest => (start, c - 1) :: split_from c numFrames rest

/-- The scene list of a video that could be opened. -/
def scene_intervals (v : VideoFile F) : List (Nat × Nat) :=
  split_from 0 v.numFrames v.cuts

/-- Embedding of `VideoProcessor.detect_scenes`: open the video (fatal error when that
fails) and run content-based scene detection on it. -/
def detect_scenes (v : VideoFile F) : Except String (List (Nat × Nat)) :=
  if v.opensOk then .ok (scene_intervals v)
  else .error "VideoOpenFailure: video could not be opened"

/-- Embedding of `VideoProcessor.extract_frames`: seek to each integer index from
`scene_start` to `scene_end` inclusive and read a frame; a failed read
(`ret = False`) is silently skipped. A returned frame carries its source
index, matching the data model of the spec. -/
def extract_frames (v : VideoFile F) (scene_start scene_end : Nat) :
    List (Nat × F) :=
  (List.range' scene_start (scene_end + 1 - scene_start)).filterMap
    (fun t => (v.decode t).map (fun fr => (t, fr)))

/-- Embedding of `VideoProcessor.extract_scene_from_video`: re-read the winning interval
frame by frame (skipping failed reads) and write the frames to the output
file; the model returns the written frame sequence. -/
def extract_scene_from_video (v : VideoFile F) (scene_start scene_end : Nat) :
    List F :=
  (List.range' scene_start (scene_end + 1 - scene_start)).filterMap v.decode

/-- One step of the selection loop in `VideoProcessor.process_video`:
`if scene_similarity > highest_similarity` updates the best scene, a strict
comparison, so an equal later score never replaces the current best. -/
def select_step (acc : Option (Nat × Nat) × ℚ) (p : (Nat × Nat) × ℚ) :
    Option (Nat × Nat) × ℚ :=
  if p.2 > acc.2 then (some p.1, p.2) else acc

/-- The selection loop of `VideoProcessor.process_video`: fold of
`select_step` over the scored scenes, seeded with `top_scene = None` and
`highest_similarity = -1`. -/
def select_top (scored : List ((Nat × Nat) × ℚ)) : Option (Nat × Nat) × ℚ :=
  scored.foldl select_step (none, -1)

/-- The scored scene list of a run: every detected scene, in detection order,
paired with the score `process_scene` gives its extracted frames. -/
def score_scenes (caps : ModelCaps (Nat × F) Emb) (v : VideoFile F)
    (qe : Option Emb) : List ((Nat × Nat) × ℚ) :=
  (scene_intervals v).map
    (fun se => (se, process_scene caps (extract_frames v se.1 se.2) qe))

/-- Embedding of `VideoProcessor.process_video`: detect scenes (fatal on open failure),
embed the query, score every scene, select the best by the strict-`>` loop,
and either extract the winning scene (returning the output) or return `None`
(`"No relevant scene found."`). -/
def process_video (caps : ModelCaps (Nat × F) Emb) (v : VideoFile F)
    (query : String) : Except String (Option (List F)) :=
  match detect_scenes v with
  | .error e => .error e
  | .ok scenes =>
    let query_embedding := get_query_embedding caps.clip_text query
    let scored := scenes.map
      (fun se => (se, process_scene caps (extract_frames v se.1 se.2) query_embedding))
    match (select_top scored).1 with
    | some se => .ok (some (extract_scene_from_video v se.1 se.2))
    | none => .ok none

/-! ### Shared lemmas -/

theorem pairwise_lt_range'_one : ∀ (s n : Nat), (List.range' s n).Pairwise (· < ·)
  | _, 0 => List.Pairwise.nil
  | s, n + 1 => by
    rw [List.range'_succ]
    refine List.Pairwise.cons ?_ (pairwise_lt_range'_one (s + 1) n)
    intro m hm
    rcases List.mem_range'.mp hm with ⟨i, _, rfl⟩
    omega

theorem all_some_map_some (l : List Emb) : all_some (l.map some) = some l := by
  induction l with
  | nil => rfl
  | cons a rest ih => simp [all_some, ih]

theorem all_some_length (l : List (Option Emb)) (es : List Emb)
    (h : all_some l = some es) : es.length = l.length := by
  induction l generalizing es with
  | nil => simp [all_some] at h; simp [← h]
  | cons o rest ih =>
    match o with
    | none => simp [all_some] at h
    | some a =>
      simp only [all_some, Option.map_eq_some'] at h
      rcases h with ⟨es', h1, rfl⟩
      simp [ih es' h1]

theorem select_foldl_le (l : List ((Nat × Nat) × ℚ)) (acc : Option (Nat × Nat) × ℚ)
    (h : ∀ p ∈ l, p.2 ≤ acc.2) : l.foldl select_step acc = acc := by
  induction l with
  | nil => rfl
  | cons p rest ih =>
    have hp : p.2 ≤ acc.2 := h p (List.mem_cons_self p rest)
    have hstep : select_step acc p = acc := by
      simp [select_step, not_lt.mpr hp]
    rw [List.foldl_cons, hstep]
    exact ih (fun q hq => h q (List.mem_cons_of_mem p hq))

theorem select_foldl_lt (l : List ((Nat × Nat) × ℚ)) (acc : Option (Nat × Nat) × ℚ)
    (s : ℚ) (hacc : acc.2 < s) (h : ∀ p ∈ l, p.2 < s) :
    (l.foldl select_step acc).2 < s := by
  induction l generalizing acc with
  | nil => exact hacc
  | cons p rest ih =>
    rw [List.foldl_cons]
    refine ih (select_step acc p) ?_ (fun q hq => h q (List.mem_cons_of_mem p hq))
    by_cases hcmp : p.2 > acc.2
    · simpa [select_step, hcmp] using h p (List.mem_cons_self p rest)
    · simpa [select_step, hcmp] using hacc

theorem select_foldl_cases (l : List ((Nat × Nat) × ℚ)) (acc : Option (Nat × Nat) × ℚ) :
    l.foldl select_step acc = acc ∨
      ∃ p ∈ l, l.foldl select_step acc = (some p.1, p.2) := by
  induction l generalizing acc with
  | nil => exact Or.inl rfl
  | cons p rest ih =>
    rw [List.foldl_cons]
    by_cases hcmp : p.2 > acc.2
    · have hstep : select_step acc p = (some p.1, p.2) := by simp [select_step, hcmp]
      rw [hstep]
      rcases ih (some p.1, p.2) with heq | ⟨q, hq, heq⟩
      · exact Or.inr ⟨p, List.mem_cons_self p rest, heq⟩
      · exact Or.inr ⟨q, List.mem_cons_of_mem p hq, heq⟩
    · have hstep : select_step acc p = acc := by simp [select_step, hcmp]
      rw [hstep]
      rcases ih acc with heq | ⟨q, hq, heq⟩
      · exact Or.inl heq
      · exact Or.inr ⟨q, List.mem_cons_of_mem p hq, heq⟩

theorem select_foldl_ge (l : List ((Nat × Nat) × ℚ)) (acc : Option (Nat × Nat) × ℚ) :
    acc.2 ≤ (l.foldl select_step acc).2 ∧
      ∀ p ∈ l, p.2 ≤ (l.foldl select_step acc).2 := by
  induction l generalizing acc with
  | nil => exact ⟨le_refl _, by simp⟩
  | cons p rest ih =>
    rw [List.foldl_cons]
    have hstep : acc.2 ≤ (select_step acc p).2 ∧ p.2 ≤ (select_step acc p).2 := by
      by_cases hcmp : p.2 > acc.2
      · simp [select_step, hcmp, le_of_lt hcmp]
      · simp [select_step, hcmp, not_lt.mp hcmp]
    rcases ih (select_step acc p) with ⟨h1, h2⟩
    refine ⟨le_trans hstep.1 h1, ?_⟩
    intro q hq
    rcases List.mem_cons.mp hq with rfl | hq'
    · exact le_trans hstep.2 h1
    · exact h2 q hq'

/-! ### Claim theorems -/

/-- C7: for every decodable video in which no content changes are detected,
the scene detector returns exactly one interval, spanning the entire
duration (frames `0` through `numFrames - 1`). -/
theorem detect_scenes_no_cuts (v : VideoFile F) (hopen : v.opensOk = true)
    (hframes : 1 ≤ v.numFrames) (hcuts : v.cuts = []) :
    detect_scenes v = .ok [(0, v.numFrames - 1)] ∧
      (v.numFrames - 1) + 1 = v.numFrames := by
  constructor
  · simp [detect_scenes, hopen, scene_intervals, hcuts, split_from]
  · omega

/-- Witness for C7 on a concrete five-frame video with no cuts. -/
def sampleVideo7 : VideoFile ℚ := ⟨true, 5, [], fun _ => some 0⟩

theorem detect_scenes_no_cuts_witness :
    detect_scenes sampleVideo7 = .ok [(0, 4)] ∧ (4 : Nat) + 1 = 5 :=
  detect_scenes_no_cuts sampleVideo7 rfl (by decide) rfl

/-- C8: the frame sampler returns only frames whose index lies in
`[scene_start, scene_end]` and which the decoder produced, in strictly
ascending index order, with at most `scene_end + 1 - scene_start` frames;
conversely every decodable index in the range is returned, so a failed
decode skips just that frame and never aborts the scene. -/
theorem extract_frames_sound (v : VideoFile F) (s e : Nat) :
    (∀ p ∈ extract_frames v s e,
        s ≤ p.1 ∧ p.1 ≤ e ∧ v.decode p.1 = some p.2) ∧
      (extract_frames v s e).Pairwise (fun p q => p.1 < q.1) ∧
      (extract_frames v s e).length ≤ e + 1 - s ∧
      ∀ t fr, s ≤ t → t ≤ e → v.decode t = some fr →
        (t, fr) ∈ extract_frames v s e := by
  refine ⟨?_, ?_, ?_, ?_⟩
  · intro p hp
    rcases List.mem_filterMap.mp hp with ⟨t, ht, hft⟩
    rcases List.mem_range'.mp ht with ⟨i, hi, rfl⟩
    rcases Option.map_eq_some'.mp hft with ⟨fr, hdec, rfl⟩
    exact ⟨by omega, by omega, hdec⟩
  · refine List.Pairwise.filterMap _ ?_ (pairwise_lt_range'_one s (e + 1 - s))
    intro a b hab x hx y hy
    rcases Option.map_eq_some'.mp hx with ⟨fra, _, rfl⟩
    rcases Option.map_eq_some'.mp hy with ⟨frb, _, rfl⟩
    exact hab
  · calc (extract_frames v s e).length
        ≤ (List.range' s (e + 1 - s)).length := List.length_filterMap_le _ _
      _ = e + 1 - s := List.length_range' s 1 (e + 1 - s)
  · intro t fr hst hte hdec
    refine List.mem_filterMap.mpr ⟨t, ?_, ?_⟩
    · exact List.mem_range'.mpr ⟨t - s, by omega, by omega⟩
    · simp [hdec]

/-- Witness for C8 on a concrete video decodable only at frame 2. -/
def sampleVideo8 : VideoFile ℚ :=
  ⟨true, 4, [], fun t => if t = 2 then some 7 else none⟩

theorem extract_frames_sound_witness :
    ((2 : Nat), (7 : ℚ)) ∈ extract_frames sampleVideo8 1 3 ∧
      (extract_frames sampleVideo8 1 3).length ≤ 3 :=
  ⟨(extract_frames_sound sampleVideo8 1 3).2.2.2 2 7 (by decide) (by decide) rfl,
    (extract_frames_sound sampleVideo8 1 3).2.2.1⟩

/-- C4: the selector compares each score with strict `>` against a running
maximum seeded at `-1`; when a maximal score `s > -1` is attained first by
scene `i` and attained again later by scene `i2`, scene `i` is selected and
the later equal score never replaces it. -/
theorem select_top_first_wins (l1 l2 l3 : List ((Nat × Nat) × ℚ))
    (i i2 : Nat × Nat) (s : ℚ) (hs : -1 < s)
    (h1 : ∀ p ∈ l1, p.2 < s) (h2 : ∀ p ∈ l2, p.2 ≤ s)
    (h3 : ∀ p ∈ l3, p.2 ≤ s) :
    select_top (l1 ++ (i, s) :: l2 ++ (i2, s) :: l3) = (some i, s) := by
  unfold select_top
  rw [List.foldl_append, List.foldl_append, List.foldl_cons, List.foldl_cons]
  have hlt : (l1.foldl select_step (none, -1)).2 < s :=
    select_foldl_lt l1 (none, -1) s hs h1
  have hstep1 :
      select_step (l1.foldl select_step (none, -1)) (i, s) = (some i, s) := by
    simp [select_step, hlt]
  rw [hstep1]
  have hmid : l2.foldl select_step (some i, s) = (some i, s) :=
    select_foldl_le l2 (some i, s) h2
  rw [hmid]
  have hstep2 : select_step (some i, s) (i2, s) = (some i, s) := by
    simp [select_step]
  rw [hstep2]
  exact select_foldl_le l3 (some i, s) h3

/-- Witness for C4: two scenes tied at score `1/2`; the earlier wins. -/
theorem select_top_first_wins_witness :
    select_top [((0, 0), 0), ((1, 2), 1/2), ((5, 6), 1/2), ((7, 8), -1)]
      = (some (1, 2), 1/2) :=
  select_top_first_wins [((0, 0), 0)] [] [((7, 8), -1)] (1, 2) (5, 6) (1/2)
    (by norm_num)
    (by intro p hp; simp only [List.mem_singleton] at hp; subst hp; norm_num)
    (by intro p hp; exact absurd hp (List.not_mem_nil p))
    (by intro p hp; simp only [List.mem_singleton] at hp; subst hp; norm_num)

/-- C5: when every score is at least `-1` and some scene has a non-sentinel
score, the selector picks a scene and the selected scene's score is strictly
greater than `-1`, so a sentinel-scored scene is never selected. -/
theorem select_top_never_sentinel (l : List ((Nat × Nat) × ℚ))
    (hrange : ∀ p ∈ l, -1 ≤ p.2) (hsome : ∃ p ∈ l, p.2 ≠ -1) :
    ∃ p ∈ l, select_top l = (some p.1, p.2) ∧ -1 < p.2 := by
  rcases hsome with ⟨p0, hp0, hne⟩
  have hp0lt : -1 < p0.2 := lt_of_le_of_ne (hrange p0 hp0) (Ne.symm hne)
  have hbest : p0.2 ≤ (select_top l).2 :=
    (select_foldl_ge l (none, -1)).2 p0 hp0
  rcases select_foldl_cases l (none, -1) with heq | ⟨p, hp, heq⟩
  · rw [select_top] at hbest
    rw [heq] at hbest
    exact absurd (lt_of_lt_of_le hp0lt hbest) (by norm_num)
  · refine ⟨p, hp, heq, ?_⟩
    have : (select_top l).2 = p.2 := by rw [select_top, heq]
    rw [this] at hbest
    exact lt_of_lt_of_le hp0lt hbest

/-- Witness for C5: a sentinel scene followed by a valid one. -/
theorem select_top_never_sentinel_witness :
    ∃ p ∈ [((0, 1), (-1 : ℚ)), ((2, 3), 1/4)],
      select_top [((0, 1), -1), ((2, 3), 1/4)] = (some p.1, p.2) ∧ -1 < p.2 :=
  select_top_never_sentinel [((0, 1), -1), ((2, 3), 1/4)]
    (by intro p hp
        rcases List.mem_cons.mp hp with rfl | hp'
        · norm_num
        · simp only [List.mem_singleton] at hp'
          subst hp'
          norm_num)
    ⟨((2, 3), 1/4), by simp, by norm_num⟩

theorem process_video_eq_of_open (caps : ModelCaps (Nat × F) Emb)
    (v : VideoFile F) (query : String) (hopen : v.opensOk = true) :
    process_video caps v query =
      match (select_top
          (score_scenes caps v (get_query_embedding caps.clip_text query))).1 with
      | some se => .ok (some (extract_scene_from_video v se.1 se.2))
      | none => .ok none := by
  simp [process_video, detect_scenes, hopen, score_scenes]

/-- C6: when no scene's score exceeds `-1`, `process_video` completes
normally, extracts nothing, and returns `None` — the
`"No relevant scene found."` signal — rather than a file path. -/
theorem process_video_no_match (caps : ModelCaps (Nat × F) Emb)
    (v : VideoFile F) (query : String) (hopen : v.opensOk = true)
    (hlow : ∀ p ∈ score_scenes caps v (get_query_embedding caps.clip_text query),
      p.2 ≤ -1) :
    process_video caps v query = .ok none := by
  have hsel :
      select_top (score_scenes caps v (get_query_embedding caps.clip_text query))
        = (none, -1) :=
    select_foldl_le _ (none, -1) hlow
  rw [process_video_eq_of_open caps v query hopen, hsel]

/-- Witness for C6: every caption fails, so both scenes score `-1` and the
run reports no relevant scene. -/
def sampleCaps6 : ModelCaps (Nat × ℚ) ℚ :=
  ⟨fun _ => .error "caption failure", fun _ => .ok 0, fun _ _ => 0⟩

def sampleVideo6 : VideoFile ℚ := ⟨true, 6, [3], fun _ => some 1⟩

theorem process_video_no_match_witness :
    process_video sampleCaps6 sampleVideo6 "a dog running" = .ok none :=
  process_video_no_match sampleCaps6 sampleVideo6 "a dog running" rfl
    (by intro p hp
        have hss : score_scenes sampleCaps6 sampleVideo6
            (get_query_embedding sampleCaps6.clip_text "a dog running") =
            [((0, 2), -1), ((3, 5), -1)] := rfl
        rw [hss] at hp
        rcases List.mem_cons.mp hp with rfl | hp'
        · exact le_refl _
        · simp only [List.mem_singleton] at hp'
          subst hp'
          exact le_refl _)

theorem compute_I2T_list_all_ok (caps : ModelCaps Frame Emb) (frames : List Frame)
    (hall : ∀ f ∈ frames, ∀ c, caps.caption f = .ok c →
      get_query_embedding caps.clip_text c ≠ none) :
    compute_I2T_list caps frames = (usable_embeddings caps frames).map some := by
  induction frames with
  | nil => rfl
  | cons f rest ih =>
    have ihr := ih (fun g hg => hall g (List.mem_cons_of_mem f hg))
    cases hcap : caps.caption f with
    | error msg =>
      simpa [compute_I2T_list, usable_embeddings, hcap] using ihr
    | ok c =>
      have hne := hall f (List.mem_cons_self f rest) c hcap
      rcases Option.ne_none_iff_exists'.mp hne with ⟨e, he⟩
      simpa [compute_I2T_list, usable_embeddings, hcap, he] using ihr

theorem torch_stack_map_some (es : List Emb) (hne : es ≠ []) :
    torch_stack (es.map some) = .ok es := by
  cases es with
  | nil => exact absurd rfl hne
  | cons a rest =>
    have h : all_some ((a :: rest).map some) = some (a :: rest) :=
      all_some_map_some (a :: rest)
    rw [List.map_cons] at h
    rw [List.map_cons]
    simp [torch_stack, h]

theorem torch_stack_ok (l : List (Option Emb)) (es : List Emb)
    (h : torch_stack l = .ok es) : all_some l = some es ∧ l ≠ [] := by
  cases l with
  | nil => exact absurd h (by simp [torch_stack])
  | cons o rest =>
    refine ⟨?_, by simp⟩
    cases hall : all_some (o :: rest) with
    | none => simp [torch_stack, hall] at h
    | some es2 =>
      simp only [torch_stack, hall] at h
      cases h
      rfl

theorem compute_I2T_ok_ne_nil (caps : ModelCaps Frame Emb) (frames : List Frame)
    (es : List Emb) (h : compute_I2T_embeddings caps frames = .ok es) :
    es ≠ [] := by
  unfold compute_I2T_embeddings at h
  rcases torch_stack_ok _ es h with ⟨hall, hnil⟩
  have hlen := all_some_length _ es hall
  intro h0
  rw [h0] at hlen
  simp only [List.length_nil] at hlen
  exact hnil (List.length_eq_zero.mp hlen.symm)

/-- C1 counterexample capabilities: frame `0` captions to `"cat"` which
embeds fine; frame `1` captions to `"dog"` whose embedding fails. -/
def sampleCaps1 : ModelCaps Nat ℚ :=
  ⟨fun f => .ok (if f = 0 then "cat" else "dog"),
   fun c => if c = "cat" then .ok 1 else .error "CLIP text failure",
   fun a b => a * b / 2⟩

/-- C1 counterexample: the scene `[0, 1]` yields exactly one usable caption
embedding, whose mean similarity with the query embedding is `1/2`, yet
`process_scene` returns `-1`: the `None` appended for the failed caption
embedding makes `torch.stack` raise, so the whole scene is scored as failed
instead of by the mean over its usable embeddings. -/
theorem process_scene_not_mean_of_usable :
    usable_embeddings sampleCaps1 [0, 1] = [1] ∧
      score_embeddings sampleCaps1.cos_sim 1 (usable_embeddings sampleCaps1 [0, 1])
        = 1/2 ∧
      process_scene sampleCaps1 [0, 1] (some 1) = -1 ∧
      (-1 : ℚ) ≠ 1/2 := by
  have h1 : usable_embeddings sampleCaps1 [0, 1] = [1] := rfl
  refine ⟨h1, ?_, rfl, by norm_num⟩
  rw [h1]
  norm_num [score_embeddings, tensor_mean, sampleCaps1]

/-- C1 (amended): for every scene whose frames yield at least one usable
caption embedding and in which no caption-embedding attempt fails, given a
present query embedding, `process_scene` returns the arithmetic mean of the
similarities between the query embedding and the scene's frame-caption
embeddings. -/
theorem process_scene_mean_of_usable (caps : ModelCaps Frame Emb)
    (frames : List Frame) (qe : Emb)
    (hne : usable_embeddings caps frames ≠ [])
    (hall : ∀ f ∈ frames, ∀ c, caps.caption f = .ok c →
      get_query_embedding caps.clip_text c ≠ none) :
    process_scene caps frames (some qe) =
      score_embeddings caps.cos_sim qe (usable_embeddings caps frames) := by
  unfold process_scene compute_I2T_embeddings
  rw [compute_I2T_list_all_ok caps frames hall, torch_stack_map_some _ hne]
  rfl

/-- C1 witness capabilities: every caption and embedding succeeds. -/
def sampleCaps1b : ModelCaps Nat ℚ :=
  ⟨fun _ => .ok "cat", fun _ => .ok 2, fun a b => a * b / 2⟩

theorem process_scene_mean_of_usable_witness :
    process_scene sampleCaps1b [0, 1] (some 1) =
      score_embeddings sampleCaps1b.cos_sim 1 (usable_embeddings sampleCaps1b [0, 1]) :=
  process_scene_mean_of_usable sampleCaps1b [0, 1] 1
    (by intro h0; exact absurd (congrArg List.length h0) (by decide))
    (by intro f hf c hc
        cases hc
        intro h0
        exact absurd h0 (by simp [get_query_embedding, sampleCaps1b]))

theorem process_scene_query_none (caps : ModelCaps Frame Emb)
    (frames : List Frame) : process_scene caps frames none = -1 := by
  unfold process_scene
  cases compute_I2T_embeddings caps frames <;> rfl

/-- C2 counterexample capabilities and video: the query embedding fails,
every caption succeeds and embeds fine. -/
def sampleCaps2 : ModelCaps (Nat × ℚ) ℚ :=
  ⟨fun _ => .ok "a dog",
   fun c => if c = "sunset over the ocean" then .error "CLIP text failure"
     else .ok 1,
   fun a b => a * b⟩

def sampleVideo2 : VideoFile ℚ := ⟨true, 2, [], fun _ => some 3⟩

/-- C2 counterexample: embedding the query fails, yet `process_video`
neither stops nor surfaces an error — it scores the scene anyway (with the
absent query embedding the scene gets the sentinel `-1`) and completes
normally with the `"No relevant scene found."` outcome `.ok none`. -/
theorem process_video_query_fail_not_fatal :
    get_query_embedding sampleCaps2.clip_text "sunset over the ocean" = none ∧
      score_scenes sampleCaps2 sampleVideo2 none = [((0, 1), -1)] ∧
      process_video sampleCaps2 sampleVideo2 "sunset over the ocean" = .ok none := by
  exact ⟨rfl, rfl, rfl⟩

/-- C2 (amended): if embedding the query fails, `get_query_embedding`
swallows the exception and returns `None`; `process_video` continues,
every scene is scored against the absent query embedding and receives the
sentinel `-1`, and the run completes normally returning `None` — the same
signal as "no relevant scene found" — instead of surfacing an error. -/
theorem process_video_query_fail (caps : ModelCaps (Nat × F) Emb)
    (v : VideoFile F) (query : String) (hopen : v.opensOk = true)
    (hfail : get_query_embedding caps.clip_text query = none) :
    process_video caps v query = .ok none ∧
      ∀ p ∈ score_scenes caps v none, p.2 = -1 := by
  have hall : ∀ p ∈ score_scenes caps v none, p.2 = -1 := by
    intro p hp
    rw [score_scenes] at hp
    rcases List.mem_map.mp hp with ⟨se, _, rfl⟩
    exact process_scene_query_none caps _
  refine ⟨?_, hall⟩
  refine process_video_no_match caps v query hopen ?_
  rw [hfail]
  intro p hp
  exact le_of_eq (hall p hp)

theorem process_video_query_fail_witness :
    process_video sampleCaps2 sampleVideo2 "sunset over the ocean" = .ok none :=
  (process_video_query_fail sampleCaps2 sampleVideo2 "sunset over the ocean"
    rfl rfl).1

theorem compute_I2T_list_mem_none (caps : ModelCaps Frame Emb)
    (frames : List Frame)
    (hfail : ∀ f ∈ frames, (∃ msg, caps.caption f = .error msg) ∨
      ∃ c, caps.caption f = .ok c ∧ get_query_embedding caps.clip_text c = none) :
    ∀ o ∈ compute_I2T_list caps frames, o = none := by
  intro o ho
  rcases List.mem_filterMap.mp ho with ⟨f, hf, hfo⟩
  cases hcap : caps.caption f with
  | error msg => rw [hcap] at hfo; cases hfo
  | ok c =>
    rw [hcap] at hfo
    rcases hfail f hf with ⟨msg, hmsg⟩ | ⟨c2, hc2, hemb⟩
    · rw [hcap] at hmsg; cases hmsg
    · rw [hcap] at hc2
      cases hc2
      cases hfo
      exact hemb

theorem torch_stack_all_none (l : List (Option Emb))
    (h : ∀ o ∈ l, o = none) : ∃ msg, torch_stack l = .error msg := by
  cases l with
  | nil => exact ⟨_, rfl⟩
  | cons o rest =>
    have ho := h o (List.mem_cons_self o rest)
    subst ho
    exact ⟨_, rfl⟩

/-- C3: a scene in which every frame's captioning attempt throws or whose
caption embedding fails is scored exactly the sentinel `-1`; and scoring is
total over the run — every detected scene of every video still receives a
score (the scored list covers the scene list exactly, in order). -/
theorem process_scene_all_fail (caps : ModelCaps Frame Emb)
    (frames : List Frame) (qe : Option Emb)
    (hfail : ∀ f ∈ frames, (∃ msg, caps.caption f = .error msg) ∨
      ∃ c, caps.caption f = .ok c ∧ get_query_embedding caps.clip_text c = none) :
    process_scene caps frames qe = -1 ∧
      ∀ (v : VideoFile F) (caps2 : ModelCaps (Nat × F) Emb) (qe2 : Option Emb),
        (score_scenes caps2 v qe2).map Prod.fst = scene_intervals v := by
  constructor
  · have hnone := compute_I2T_list_mem_none caps frames hfail
    rcases torch_stack_all_none _ hnone with ⟨msg, hmsg⟩
    unfold process_scene compute_I2T_embeddings
    rw [hmsg]
  · intro v caps2 qe2
    rw [score_scenes, List.map_map]
    exact List.map_id _

/-- C3 witness capabilities: frame `0` fails to caption, frame `1` captions
but its caption fails to embed. -/
def sampleCaps3 : ModelCaps Nat ℚ :=
  ⟨fun f => if f = 0 then .error "BLIP caption failure" else .ok "a dog",
   fun _ => .error "CLIP text failure", fun _ _ => 0⟩

theorem process_scene_all_fail_witness :
    process_scene sampleCaps3 [0, 1] (some 1) = -1 :=
  (process_scene_all_fail (F := ℚ) sampleCaps3 [0, 1] (some 1)
    (by intro f hf
        rcases List.mem_cons.mp hf with rfl | hf'
        · exact Or.inl ⟨"BLIP caption failure", rfl⟩
        · simp only [List.mem_singleton] at hf'
          subst hf'
          exact Or.inr ⟨"a dog", rfl, rfl⟩)).1

/-- C9: the scene score is the mean of the per-frame similarities, so it is
invariant under any permutation of the scene's caption embeddings. -/
theorem score_embeddings_perm (cs : Emb → Emb → ℚ) (qe : Emb)
    (es es2 : List Emb) (h : es.Perm es2) :
    score_embeddings cs qe es = score_embeddings cs qe es2 := by
  have hm : (es.map (cs qe)).Perm (es2.map (cs qe)) := h.map (cs qe)
  unfold score_embeddings tensor_mean
  rw [hm.sum_eq, hm.length_eq]

theorem score_embeddings_perm_witness :
    score_embeddings (fun a b : ℚ => a * b) 1 [1, 2] =
      score_embeddings (fun a b : ℚ => a * b) 1 [2, 1] :=
  score_embeddings_perm (fun a b : ℚ => a * b) 1 [1, 2] [2, 1]
    (List.Perm.swap 2 1 [])

theorem list_sum_bounds (l : List ℚ) (h : ∀ x ∈ l, -1 ≤ x ∧ x ≤ 1) :
    -(l.length : ℚ) ≤ l.sum ∧ l.sum ≤ (l.length : ℚ) := by
  induction l with
  | nil => simp
  | cons a rest ih =>
    have ha := h a (List.mem_cons_self a rest)
    have ihr := ih (fun x hx => h x (List.mem_cons_of_mem a hx))
    simp only [List.sum_cons, List.length_cons]
    push_cast
    constructor
    · linarith [ha.1, ihr.1]
    · linarith [ha.2, ihr.2]

theorem tensor_mean_bounds (l : List ℚ) (hne : l ≠ [])
    (h : ∀ x ∈ l, -1 ≤ x ∧ x ≤ 1) :
    -1 ≤ tensor_mean l ∧ tensor_mean l ≤ 1 := by
  have hlen : 0 < (l.length : ℚ) := by
    have hp : 0 < l.length := List.length_pos.mpr hne
    exact_mod_cast hp
  rcases list_sum_bounds l h with ⟨h1, h2⟩
  unfold tensor_mean
  constructor
  · rw [le_div_iff₀ hlen]
    linarith
  · rw [div_le_one hlen]
    linarith

/-- C10: `process_scene` is total — every exception is caught — and
whenever the similarity function is bounded by the cosine range, its result
lies in `[-1, 1]` and is either the sentinel `-1` or the mean of the
similarities of a nonempty list of caption embeddings with the present
query embedding. -/
theorem process_scene_total_range (caps : ModelCaps Frame Emb)
    (hcos : ∀ a b, -1 ≤ caps.cos_sim a b ∧ caps.cos_sim a b ≤ 1)
    (frames : List Frame) (qe : Option Emb) :
    (-1 ≤ process_scene caps frames qe ∧ process_scene caps frames qe ≤ 1) ∧
      (process_scene caps frames qe = -1 ∨
        ∃ q es, qe = some q ∧ es ≠ [] ∧
          process_scene caps frames qe = score_embeddings caps.cos_sim q es) := by
  unfold process_scene
  cases hc : compute_I2T_embeddings caps frames with
  | error msg => exact ⟨⟨le_refl _, show (-1 : ℚ) ≤ 1 by norm_num⟩, Or.inl rfl⟩
  | ok es =>
    have hne : es ≠ [] := compute_I2T_ok_ne_nil caps frames es hc
    cases qe with
    | none => exact ⟨⟨le_refl _, show (-1 : ℚ) ≤ 1 by norm_num⟩, Or.inl rfl⟩
    | some q =>
      have hmne : es.map (caps.cos_sim q) ≠ [] := by
        intro h0
        exact hne (List.map_eq_nil_iff.mp h0)
      have hbnd : ∀ x ∈ es.map (caps.cos_sim q), -1 ≤ x ∧ x ≤ 1 := by
        intro x hx
        rcases List.mem_map.mp hx with ⟨e, _, rfl⟩
        exact hcos q e
      have hm := tensor_mean_bounds _ hmne hbnd
      exact ⟨⟨hm.1, hm.2⟩, Or.inr ⟨q, es, rfl, hne, rfl⟩⟩

/-- C10 witness capabilities: constant similarity `1/2`. -/
def sampleCaps10 : ModelCaps Nat ℚ :=
  ⟨fun _ => .ok "c", fun _ => .ok 0, fun _ _ => 1/2⟩

theorem process_scene_total_range_witness :
    -1 ≤ process_scene sampleCaps10 [0] (some 0) ∧
      process_scene sampleCaps10 [0] (some 0) ≤ 1 :=
  (process_scene_total_range sampleCaps10
    (fun a b => ⟨by norm_num [sampleCaps10], by norm_num [sampleCaps10]⟩)
    [0] (some 0)).1

end VideoSearch
